import Mathlib

/-!
Verification development for the entekhablock tamper-evident vote ledger and
its presentation layer (`static/js/blockchain.js`).

The ledger core (Hasher, Block, Ledger, Validator, Tamper injector) is not
shipped with the frontend sources; those components are modelled from the
specification (sections 3 to 5 and 7 of the design document).  The browser-side
functions `verifyChain`, `simulateTampering`, `truncateAllHashes` and
`toggleAllBlocks` are shallow embeddings of the JavaScript in
`static/js/blockchain.js`, with the DOM and `fetch` effects made explicit as
input and output values.
-/

namespace Entekhablock

/-! ## Ledger core (modelled from the spec) -/

/-- Digests are modelled as natural numbers. -/
abbrev Digest := Nat

/-- Modelled from the spec: the payload is an "opaque ordered collection of
vote records"; each record is modelled as a natural number code. -/
abbrev Payload := List Nat

/-- Modelled from the spec: the genesis sentinel, "a fixed well-known sentinel
value (e.g., all-zero digest)". -/
def sentinel : Digest := 0

/-- Injective encoding of a payload into a natural number, used as the
canonical serialization the Hasher consumes. -/
def encodeList : List Nat → Nat
  | [] => 0
  | a :: l => Nat.pair a (encodeList l) + 1

/-- Modelled from the spec: `digest(index, timestamp, payload, previous_digest)`,
a pure deterministic function.  The cryptographic hash is idealized as an
injective pairing (collisions have negligible probability in the design, so
the model has none); the `+ 1` reflects that a digest of data that includes
`previous_digest` is never equal to `previous_digest` itself. -/
def hasher (index timestamp : Nat) (payload : Payload) (previous_digest : Digest) : Digest :=
  Nat.pair index (Nat.pair timestamp (Nat.pair (encodeList payload) previous_digest)) + 1

/-- Modelled from the spec: a sealed unit of ledger history: index, timestamp,
payload, link to the predecessor and its own digest. -/
structure Block where
  index : Nat
  timestamp : Nat
  payload : Payload
  previous_digest : Digest
  digest : Digest
deriving DecidableEq, Repr

/-- Modelled from the spec: `seal(index, timestamp, payload, previous_digest)`
produces a Block whose digest is computed via the Hasher. -/
def sealBlock (index timestamp : Nat) (payload : Payload) (previous_digest : Digest) : Block :=
  ⟨index, timestamp, payload, previous_digest, hasher index timestamp payload previous_digest⟩

/-- Which invariant a validation failure is attributed to. -/
inductive Violation where
  | I1
  | I2
  | I3
deriving DecidableEq, Repr

/-- Modelled from the spec: the transient ValidationReport: `is_valid`, the
smallest failing index, and which invariant failed. -/
structure ValidationReport where
  is_valid : Bool
  first_invalid_index : Option Nat
  violation : Option Violation
deriving DecidableEq, Repr

/-- Modelled from the spec: the I2 linkage check for one block: when a
predecessor exists (`i > 0`), its digest must equal the block's
`previous_digest`; the genesis position has no linkage to check. -/
def linkBroken (prev : Option Digest) (b : Block) : Bool :=
  match prev with
  | some pd => b.previous_digest != pd
  | none => false

/-- Modelled from the spec: the validator's scan.  `prev` is the digest of the
previous block (`none` at the genesis position), `i` the index of the first
block of the remaining list.  Each block is checked for I1 (its stored digest
matches the recomputation) and then for I2; the first violation is reported
and scanning stops. -/
def scanChain (prev : Option Digest) (i : Nat) : List Block → Option (Nat × Violation)
  | [] => none
  | b :: rest =>
    if b.digest ≠ hasher b.index b.timestamp b.payload b.previous_digest then
      some (i, Violation.I1)
    else if linkBroken prev b then some (i, Violation.I2)
    else scanChain (some b.digest) (i + 1) rest

/-- Modelled from the spec: invariant I3, the genesis block exists and its
`previous_digest` is the sentinel. -/
def checkI3 : List Block → Bool
  | [] => false
  | b :: _ => b.previous_digest == sentinel

/-- Modelled from the spec: `validate(chain) -> ValidationReport`.  An I1 or I2
violation is reported at its index; when the scan is clean the genesis I3
condition decides the verdict (an I3 failure is attributed to index 0). -/
def validate (chain : List Block) : ValidationReport :=
  match scanChain none 0 chain with
  | some (i, v) => ⟨false, some i, some v⟩
  | none => if checkI3 chain then ⟨true, none, none⟩ else ⟨false, some 0, some Violation.I3⟩

/-- Modelled from the spec: the Ledger, an ordered append-only sequence of
blocks owning the mutable head. -/
structure Ledger where
  blocks : List Block
deriving DecidableEq, Repr

/-- Modelled from the spec: ledger errors: `ConcurrentAppendConflict`
(retryable) and `IndexOutOfRange` (caller error). -/
inductive LedgerErr where
  | ConcurrentAppendConflict
  | IndexOutOfRange
deriving DecidableEq, Repr

/-- Digest of the last block of a list, `d` when the list is empty. -/
def lastDigest (d : Digest) : List Block → Digest
  | [] => d
  | b :: rest => lastDigest b.digest rest

/-- Modelled from the spec: the current head's digest (the sentinel for an
empty block list, which normal operation never produces). -/
def Ledger.headDigest (L : Ledger) : Digest := lastDigest sentinel L.blocks

/-- Modelled from the spec: a ledger is "created with a genesis block at
process start"; the genesis `previous_digest` is the sentinel. -/
def initLedger (genesisPayload : Payload) (genesisTimestamp : Nat) : Ledger :=
  ⟨[sealBlock 0 genesisTimestamp genesisPayload sentinel]⟩

/-- Modelled from the spec: `length()`, the current block count. -/
def Ledger.length (L : Ledger) : Nat := L.blocks.length

/-- Modelled from the spec: the body of `append`: build the next index from
the current length, take the head's digest as `previous_digest`, seal, and
publish the new block at the tail. -/
def appendBlock (L : Ledger) (payload : Payload) (timestamp : Nat) : Ledger :=
  ⟨L.blocks ++ [sealBlock L.blocks.length timestamp payload L.headDigest]⟩

/-- Modelled from the spec: the compare-and-publish protocol keyed on the head
digest that serializes `append`.  The caller presents the head digest it
observed; publication succeeds only when it still matches, otherwise the
append fails with the retryable `ConcurrentAppendConflict`. -/
def tryAppend (L : Ledger) (observedHead : Digest) (payload : Payload) (timestamp : Nat) :
    Except LedgerErr Ledger :=
  if L.headDigest = observedHead then Except.ok (appendBlock L payload timestamp)
  else Except.error LedgerErr.ConcurrentAppendConflict

/-- Modelled from the spec: `get(index)`: read-only lookup, failing with
`IndexOutOfRange` when `index` is negative or at least the current length. -/
def Ledger.get (L : Ledger) (index : Int) : Except LedgerErr Block :=
  if h : 0 ≤ index ∧ index.toNat < L.blocks.length then
    Except.ok (L.blocks.get ⟨index.toNat, h.2⟩)
  else Except.error LedgerErr.IndexOutOfRange

/-- Modelled from the spec: `snapshot()`, a consistent copy of the whole
chain. -/
def Ledger.snapshot (L : Ledger) : List Block := L.blocks

/-- Modelled from the spec: the tamper injector `corrupt(index, new_payload)`:
overwrite `payload` of the block at `index` in place, leaving `digest` and
`previous_digest` untouched; `IndexOutOfRange` on a bad index. -/
def corrupt (L : Ledger) (index : Nat) (new_payload : Payload) : Except LedgerErr Ledger :=
  if h : index < L.blocks.length then
    Except.ok ⟨L.blocks.set index { L.blocks.get ⟨index, h⟩ with payload := new_payload }⟩
  else Except.error LedgerErr.IndexOutOfRange

/-- A sequence of successful sequential appends. -/
def applyAppends (L : Ledger) : List (Payload × Nat) → Ledger
  | [] => L
  | (p, t) :: rest => applyAppends (appendBlock L p t) rest

/-- The digest of the block preceding the continuation of a scan: after the
validator has walked `l` starting from predecessor digest `prev`, the next
block's predecessor digest. -/
def nextPrev (prev : Option Digest) : List Block → Option Digest
  | [] => prev
  | b :: rest => nextPrev (some b.digest) rest

/-- A chain passes the validator's scan and the genesis I3 check. -/
def ChainOk (L : Ledger) : Prop :=
  scanChain none 0 L.blocks = none ∧ checkI3 L.blocks = true

/-- The predecessor digests of a ledger's blocks, followed by the head
digest, are strictly increasing: each sealed digest strictly dominates the
digest it links to. -/
def PrevChain (L : Ledger) : Prop :=
  (L.blocks.map Block.previous_digest ++ [L.headDigest]).Pairwise (· < ·)

/-- A demonstration ledger: genesis plus one appended block. -/
def demoLedger : Ledger := applyAppends (initLedger [0] 0) [([1], 1)]

/-- A demonstration ledger with three blocks. -/
def demoLedger3 : Ledger := applyAppends (initLedger [0] 0) [([1], 1), ([2], 2)]

/-! ## Presentation layer (`static/js/blockchain.js`) -/

/-- Notification categories accepted by `showNotification(message, type)`. -/
inductive NotifType where
  | success
  | error
  | warning
deriving DecidableEq, Repr

/-- A notification as shown by `showNotification`: its message text and
type. -/
structure Notification where
  message : String
  ntype : NotifType
deriving DecidableEq, Repr

/-- The outcome of a `fetch` call: a network failure (the promise rejects) or
a response value. -/
inductive FetchResult (α : Type) where
  | networkError
  | response (r : α)
deriving DecidableEq, Repr

/-- The parts of the `/api/blockchain/is_valid` response `verifyChain` reads:
the HTTP status, and the truthiness of the JSON body's `is_valid` field
(`none` when `response.json()` rejects because the body is not JSON; a missing
`is_valid` field is falsy, i.e. `some false`). -/
structure VerifyResponse where
  status : Nat
  is_valid : Option Bool
deriving DecidableEq, Repr

/-- `Response.ok` of the Fetch API: status in the range 200 to 299. -/
def respOk (r : VerifyResponse) : Bool := 200 ≤ r.status && r.status < 300

/-- Effects of `verifyChain` on the page: the notifications shown and whether
a `location.reload()` was scheduled. -/
structure UIEffects where
  notifications : List Notification
  reloadScheduled : Bool
deriving DecidableEq, Repr

/-- Message literals of `blockchain.js`. -/
def msgChainValid : String := "✅ بلاک‌چین معتبر است."

def msgChainInvalid : String := "⚠️ هشدار: بلاک‌چین نامعتبر است!"

def msgVerifyFailed : String := "❌ خطا در تأیید اعتبار بلاک‌چین."

def msgTamperFallback : String := "خطا در دستکاری"

def msgServerError : String := "❌ خطا در ارتباط با سرور."

/-- Embedding of `verifyChain` (`blockchain.js` lines 82 to 101).  Inside the
`try` block: a non-ok response throws, `response.json()` may throw, then a
truthy `is_valid` shows the success notification and a falsy one the error
notification, and in both cases a reload is scheduled.  The `catch` block
shows the generic failure notification and schedules no reload, so the
function never throws to its caller. -/
def verifyChain : FetchResult VerifyResponse → UIEffects
  | FetchResult.networkError => ⟨[⟨msgVerifyFailed, NotifType.error⟩], false⟩
  | FetchResult.response r =>
    if respOk r then
      match r.is_valid with
      | none => ⟨[⟨msgVerifyFailed, NotifType.error⟩], false⟩
      | some true => ⟨[⟨msgChainValid, NotifType.success⟩], true⟩
      | some false => ⟨[⟨msgChainInvalid, NotifType.error⟩], true⟩
    else ⟨[⟨msgVerifyFailed, NotifType.error⟩], false⟩

/-- JavaScript whitespace as recognized by `Number(...)` string trimming. -/
def jsWhitespace (c : Char) : Bool :=
  c = ' ' || c = '\t' || c = '\n' || c = '\r' || c = '\x0B' || c = '\x0C' ||
  c = ' ' || c = '﻿'

/-- One or more decimal digits. -/
def digits1 (l : List Char) : Bool := !l.isEmpty && l.all (·.isDigit)

/-- One or more hexadecimal digits. -/
def hexDigits1 (l : List Char) : Bool :=
  !l.isEmpty && l.all fun c => c.isDigit || ('a' ≤ c && c ≤ 'f') || ('A' ≤ c && c ≤ 'F')

/-- One or more binary digits. -/
def binDigits1 (l : List Char) : Bool := !l.isEmpty && l.all fun c => c = '0' || c = '1'

/-- One or more octal digits. -/
def octDigits1 (l : List Char) : Bool := !l.isEmpty && l.all fun c => '0' ≤ c && c ≤ '7'

/-- An optionally signed digit string (the exponent of a decimal literal). -/
def signedDigits : List Char → Bool
  | '+' :: rest => digits1 rest
  | '-' :: rest => digits1 rest
  | l => digits1 l

/-- An optional exponent part `e`/`E` followed by an optionally signed digit
string; the empty remainder is accepted. -/
def expTail : List Char → Bool
  | [] => true
  | 'e' :: rest => signedDigits rest
  | 'E' :: rest => signedDigits rest
  | _ => false

/-- An unsigned decimal literal: digits, digits `.` digits*, or `.` digits,
followed by an optional exponent. -/
def decLiteral (l : List Char) : Bool :=
  let ip := l.takeWhile (·.isDigit)
  let rest := l.dropWhile (·.isDigit)
  match rest with
  | '.' :: rest2 =>
    let fp := rest2.takeWhile (·.isDigit)
    let rest3 := rest2.dropWhile (·.isDigit)
    (!ip.isEmpty || !fp.isEmpty) && expTail rest3
  | _ => !ip.isEmpty && expTail rest

/-- A nonempty trimmed string that `Number(...)` converts to a number: an
optionally signed decimal literal or `Infinity`, or an unsigned hexadecimal,
binary or octal literal. -/
def jsNumericChars : List Char → Bool
  | '+' :: rest => decLiteral rest || rest = "Infinity".data
  | '-' :: rest => decLiteral rest || rest = "Infinity".data
  | '0' :: 'x' :: rest => hexDigits1 rest
  | '0' :: 'X' :: rest => hexDigits1 rest
  | '0' :: 'b' :: rest => binDigits1 rest
  | '0' :: 'B' :: rest => binDigits1 rest
  | '0' :: 'o' :: rest => octDigits1 rest
  | '0' :: 'O' :: rest => octDigits1 rest
  | l => decLiteral l || l = "Infinity".data

/-- The JavaScript global `isNaN(s)` on a string: `Number(s)` of a
whitespace-only string is `0`, otherwise the trimmed content must be a
numeric literal. -/
def jsIsNaN (s : String) : Bool :=
  let t := ((s.data.dropWhile jsWhitespace).reverse.dropWhile jsWhitespace).reverse
  if t.isEmpty then false else !jsNumericChars t

/-- JavaScript `a || b` for a possibly absent string `a`: `null`, `undefined`
and the empty string are falsy. -/
def jsOrElse (m : Option String) (fallback : String) : String :=
  match m with
  | some s => if s = "" then fallback else s
  | none => fallback

/-- Coercion of a possibly absent string to text content, as when an
`undefined` message is assigned to `textContent`. -/
def jsStringOfOpt (m : Option String) : String := m.getD "undefined"

/-- The parts of the `/api/blockchain/tamper/{index}` response
`simulateTampering` reads: `Response.ok`, and the JSON body's `message` field
(outer `none` when `response.json()` rejects; inner `none` when the field is
absent). -/
structure TamperResponse where
  ok : Bool
  body : Option (Option String)
deriving DecidableEq, Repr

/-- Effects of `simulateTampering`: the URL of the POST request when one was
issued, the notifications shown, and whether a reload was scheduled. -/
structure TamperEffects where
  request : Option String
  notifications : List Notification
  reloadScheduled : Bool
deriving DecidableEq, Repr

/-- Embedding of `simulateTampering` (`blockchain.js` lines 104 to 125).  The
`prompt` result is `none` when cancelled; a falsy (empty) or `isNaN` input
returns before any request.  Otherwise the raw input is interpolated into the
URL; `response.json()` runs before the ok-check, a rejected fetch or body
parse lands in `catch` (generic error, no reload), a non-ok response shows
`data.message || fallback` as an error without reloading, and an ok response
shows `data.message` as a warning and schedules a reload. -/
def simulateTampering (promptInput : Option String)
    (net : FetchResult TamperResponse) : TamperEffects :=
  match promptInput with
  | none => ⟨none, [], false⟩
  | some s =>
    if s = "" || jsIsNaN s then ⟨none, [], false⟩
    else
      let url := "/api/blockchain/tamper/" ++ s
      match net with
      | FetchResult.networkError => ⟨some url, [⟨msgServerError, NotifType.error⟩], false⟩
      | FetchResult.response r =>
        match r.body with
        | none => ⟨some url, [⟨msgServerError, NotifType.error⟩], false⟩
        | some message =>
          if r.ok then ⟨some url, [⟨jsStringOfOpt message, NotifType.warning⟩], true⟩
          else ⟨some url, [⟨jsOrElse message msgTamperFallback, NotifType.error⟩], false⟩

/-- A `.hash-value` element: its `title` attribute (`none` when absent) and
its text content.  JavaScript string indices are UTF-16 code units; hash
strings are ASCII, so characters model them exactly. -/
structure HashEl where
  title : Option String
  text : String
deriving DecidableEq, Repr

/-- `el.getAttribute('title') || el.textContent`: the full hash value an
element carries (an absent or empty `title` attribute is falsy). -/
def fullHashOf (e : HashEl) : String := jsOrElse e.title e.text

/-- Embedding of the per-element body of `truncateAllHashes` (`blockchain.js`
lines 163 to 171): when the full value has more than 32 characters, the text
content becomes its first 16 characters, an ellipsis, and its last 16
characters; the `title` attribute is never written. -/
def truncateHashEl (e : HashEl) : HashEl :=
  let full := fullHashOf e
  if full.length > 32 then
    { e with text := full.take 16 ++ "..." ++ full.drop (full.length - 16) }
  else e

/-- Embedding of `truncateAllHashes`: the per-element update applied to every
`.hash-value` element. -/
def truncateAllHashes (els : List HashEl) : List HashEl := els.map truncateHashEl

/-- A `.block-item` element together with its details panel: the data index,
the `collapsed` and `expanded` classes, and the details panel's
`style.display`. -/
structure BlockItem where
  idx : Nat
  collapsed : Bool
  expanded : Bool
  display : String
deriving DecidableEq, Repr

/-- Embedding of `toggleAllBlocks` (`blockchain.js` lines 36 to 57): when any
block carries the `collapsed` class, every block is expanded (classes set,
details display `block`); otherwise every block is collapsed (details display
`none`). -/
def toggleAllBlocks (blocks : List BlockItem) : List BlockItem :=
  let isAnyCollapsed := blocks.any (·.collapsed)
  blocks.map fun b =>
    if isAnyCollapsed then { b with collapsed := false, expanded := true, display := "block" }
    else { b with collapsed := true, expanded := false, display := "none" }

/-! ## Helper lemmas -/

theorem encodeList_inj : ∀ {l l' : List Nat}, encodeList l = encodeList l' → l = l'
  | [], [], _ => rfl
  | [], _ :: _, h => by simp [encodeList] at h
  | _ :: _, [], h => by simp [encodeList] at h
  | a :: l, a' :: l', h => by
    simp only [encodeList, Nat.add_right_cancel_iff, Nat.pair_eq_pair] at h
    exact by rw [h.1, encodeList_inj h.2]

theorem hasher_inj {i t i' t' : Nat} {p p' : Payload} {d d' : Digest}
    (h : hasher i t p d = hasher i' t' p' d') : i = i' ∧ t = t' ∧ p = p' ∧ d = d' := by
  simp only [hasher, Nat.add_right_cancel_iff, Nat.pair_eq_pair] at h
  exact ⟨h.1, h.2.1, encodeList_inj h.2.2.1, h.2.2.2⟩

theorem lt_hasher (i t : Nat) (p : Payload) (d : Digest) : d < hasher i t p d := by
  have h1 : d ≤ Nat.pair (encodeList p) d := Nat.right_le_pair _ _
  have h2 : Nat.pair (encodeList p) d ≤ Nat.pair t (Nat.pair (encodeList p) d) :=
    Nat.right_le_pair _ _
  have h3 : Nat.pair t (Nat.pair (encodeList p) d) ≤
      Nat.pair i (Nat.pair t (Nat.pair (encodeList p) d)) := Nat.right_le_pair _ _
  exact Nat.lt_succ_of_le (h1.trans (h2.trans h3))

theorem nextPrev_some (d : Digest) : ∀ l : List Block, nextPrev (some d) l = some (lastDigest d l)
  | [] => rfl
  | _ :: rest => nextPrev_some _ rest

/-- Composition of the validator's scan: once a clean prefix has been walked,
scanning the whole list continues on the suffix with the prefix's last digest
as predecessor. -/
theorem scanChain_append_of_none (l₂ : List Block) :
    ∀ (l₁ : List Block) (prev : Option Digest) (i : Nat), scanChain prev i l₁ = none →
      scanChain prev i (l₁ ++ l₂) = scanChain (nextPrev prev l₁) (i + l₁.length) l₂ := by
  intro l₁
  induction l₁ with
  | nil => intro prev i _; simp [nextPrev]
  | cons a t ih =>
    intro prev i h
    rw [scanChain] at h
    by_cases h1 : a.digest ≠ hasher a.index a.timestamp a.payload a.previous_digest
    · rw [if_pos h1] at h
      exact absurd h (by simp)
    · rw [if_neg h1] at h
      by_cases h2 : linkBroken prev a = true
      · rw [if_pos h2] at h
        exact absurd h (by simp)
      · rw [if_neg h2] at h
        rw [List.cons_append, scanChain, if_neg h1, if_neg h2,
          ih (some a.digest) (i + 1) h]
        show _ = scanChain (nextPrev (some a.digest) t) (i + (a :: t).length) l₂
        rw [List.length_cons]
        have e : i + (t.length + 1) = i + 1 + t.length := by omega
        rw [e]

/-- A clean scan of a whole list restricts to any of its initial segments. -/
theorem scanChain_of_append_none (l₂ : List Block) :
    ∀ (l₁ : List Block) (prev : Option Digest) (i : Nat),
      scanChain prev i (l₁ ++ l₂) = none → scanChain prev i l₁ = none := by
  intro l₁
  induction l₁ with
  | nil => intro prev i _; rfl
  | cons a t ih =>
    intro prev i h
    rw [List.cons_append, scanChain] at h
    by_cases h1 : a.digest ≠ hasher a.index a.timestamp a.payload a.previous_digest
    · rw [if_pos h1] at h
      exact absurd h (by simp)
    · rw [if_neg h1] at h
      by_cases h2 : linkBroken prev a = true
      · rw [if_pos h2] at h
        exact absurd h (by simp)
      · rw [if_neg h2] at h
        rw [scanChain, if_neg h1, if_neg h2]
        exact ih (some a.digest) (i + 1) h

/-- A block failing the digest recomputation (I1) right after a clean prefix
is reported at its position, whatever follows it. -/
theorem scanChain_append_I1 (l₁ : List Block) (b : Block) (rest : List Block)
    (prev : Option Digest) (i : Nat) (hclean : scanChain prev i l₁ = none)
    (hbad : b.digest ≠ hasher b.index b.timestamp b.payload b.previous_digest) :
    scanChain prev i (l₁ ++ b :: rest) = some (i + l₁.length, Violation.I1) := by
  rw [scanChain_append_of_none _ _ _ _ hclean]
  simp [scanChain, hbad]

theorem lastDigest_append (b : Block) :
    ∀ (l : List Block) (d : Digest), lastDigest d (l ++ [b]) = b.digest
  | [], _ => rfl
  | _ :: rest, _ => lastDigest_append b rest _

theorem headDigest_appendBlock (L : Ledger) (p : Payload) (t : Nat) :
    (appendBlock L p t).headDigest = hasher L.blocks.length t p L.headDigest := by
  show lastDigest sentinel (L.blocks ++ [sealBlock L.blocks.length t p L.headDigest]) = _
  rw [lastDigest_append]
  rfl

/-- Appending a freshly sealed block to a cleanly scanning chain keeps the
scan clean. -/
theorem scanChain_snoc_sealed (blocks : List Block) (t : Nat) (p : Payload)
    (hscan : scanChain none 0 blocks = none) :
    scanChain none 0
      (blocks ++ [sealBlock blocks.length t p (lastDigest sentinel blocks)]) = none := by
  rw [scanChain_append_of_none _ _ _ _ hscan, scanChain]
  rw [if_neg (by simp [sealBlock])]
  rw [if_neg ?hlink]
  · rfl
  case hlink =>
    cases blocks with
    | nil => simp [nextPrev, linkBroken]
    | cons c rest =>
      show ¬(linkBroken (nextPrev (some c.digest) rest) _ = true)
      rw [nextPrev_some]
      show ¬((lastDigest sentinel (c :: rest) != lastDigest c.digest rest) = true)
      show ¬((lastDigest c.digest rest != lastDigest c.digest rest) = true)
      simp

theorem chainOk_appendBlock (L : Ledger) (p : Payload) (t : Nat) (h : ChainOk L) :
    ChainOk (appendBlock L p t) := by
  obtain ⟨hscan, hI3⟩ := h
  refine ⟨scanChain_snoc_sealed L.blocks t p hscan, ?_⟩
  show checkI3 (L.blocks ++ [_]) = true
  cases hb : L.blocks with
  | nil => rw [hb] at hI3; exact absurd hI3 (by simp [checkI3])
  | cons c rest => rw [hb] at hI3; exact hI3

theorem chainOk_initLedger (gp : Payload) (gt : Nat) : ChainOk (initLedger gp gt) := by
  constructor
  · show scanChain none 0 [sealBlock 0 gt gp sentinel] = none
    rw [scanChain, if_neg (by simp [sealBlock]), if_neg (by simp [linkBroken])]
    rfl
  · show checkI3 [sealBlock 0 gt gp sentinel] = true
    simp [checkI3, sealBlock]

theorem chainOk_applyAppends :
    ∀ (inputs : List (Payload × Nat)) (L : Ledger), ChainOk L → ChainOk (applyAppends L inputs)
  | [], _, h => h
  | (p, t) :: rest, L, h =>
    chainOk_applyAppends rest (appendBlock L p t) (chainOk_appendBlock L p t h)

theorem length_applyAppends :
    ∀ (inputs : List (Payload × Nat)) (L : Ledger),
      (applyAppends L inputs).blocks.length = L.blocks.length + inputs.length
  | [], _ => rfl
  | (p, t) :: rest, L => by
    show (applyAppends (appendBlock L p t) rest).blocks.length = _
    rw [length_applyAppends rest]
    show (L.blocks ++ [_]).length + rest.length = _
    simp
    omega

theorem validate_of_chainOk (L : Ledger) (h : ChainOk L) :
    validate L.blocks = ⟨true, none, none⟩ := by
  rw [validate, h.1]
  show (if checkI3 L.blocks then _ else _) = _
  rw [h.2]
  rfl

theorem scanChain_none_of_validate_ok (chain : List Block)
    (h : validate chain = ⟨true, none, none⟩) : scanChain none 0 chain = none := by
  by_cases hs : scanChain none 0 chain = none
  · exact hs
  · obtain ⟨⟨i, v⟩, hx⟩ := Option.ne_none_iff_exists'.mp hs
    rw [validate, hx] at h
    exact absurd h (by simp)

theorem blocks_decomp (blocks : List Block) (k : Nat) (hk : k < blocks.length) :
    blocks = blocks.take k ++ blocks.get ⟨k, hk⟩ :: blocks.drop (k + 1) := by
  conv_lhs => rw [← List.take_append_drop k blocks]
  rw [List.get_eq_getElem]
  rw [← List.drop_eq_getElem_cons hk]

/-- In a chain whose scan is clean, every block satisfies I1. -/
theorem scanChain_I1_at (blocks : List Block) (k : Nat) (hk : k < blocks.length)
    (hscan : scanChain none 0 blocks = none) :
    (blocks.get ⟨k, hk⟩).digest =
      hasher (blocks.get ⟨k, hk⟩).index (blocks.get ⟨k, hk⟩).timestamp
        (blocks.get ⟨k, hk⟩).payload (blocks.get ⟨k, hk⟩).previous_digest := by
  rw [blocks_decomp blocks k hk] at hscan
  have hpre : scanChain none 0 (blocks.take k) = none :=
    scanChain_of_append_none _ _ _ _ hscan
  rw [scanChain_append_of_none _ _ _ _ hpre, scanChain] at hscan
  by_cases h1 : (blocks.get ⟨k, hk⟩).digest ≠
      hasher (blocks.get ⟨k, hk⟩).index (blocks.get ⟨k, hk⟩).timestamp
        (blocks.get ⟨k, hk⟩).payload (blocks.get ⟨k, hk⟩).previous_digest
  · rw [if_pos h1] at hscan
    exact absurd hscan (by simp)
  · exact not_ne_iff.mp h1

theorem map_index_appendBlock (L : Ledger) (p : Payload) (t : Nat)
    (h : L.blocks.map Block.index = List.range L.blocks.length) :
    (appendBlock L p t).blocks.map Block.index
      = List.range (appendBlock L p t).blocks.length := by
  have e : (appendBlock L p t).blocks
      = L.blocks ++ [sealBlock L.blocks.length t p L.headDigest] := rfl
  rw [e, List.map_append, h, List.length_append]
  show List.range L.blocks.length ++ [L.blocks.length] = List.range (L.blocks.length + 1)
  exact (List.range_succ _).symm

theorem map_index_applyAppends :
    ∀ (inputs : List (Payload × Nat)) (L : Ledger),
      L.blocks.map Block.index = List.range L.blocks.length →
      (applyAppends L inputs).blocks.map Block.index
        = List.range (applyAppends L inputs).blocks.length
  | [], _, h => h
  | (p, t) :: rest, L, h =>
    map_index_applyAppends rest (appendBlock L p t) (map_index_appendBlock L p t h)

theorem prevChain_appendBlock (L : Ledger) (p : Payload) (t : Nat) (h : PrevChain L) :
    PrevChain (appendBlock L p t) := by
  have hstep : L.headDigest < (appendBlock L p t).headDigest := by
    rw [headDigest_appendBlock]
    exact lt_hasher _ _ _ _
  have hmap : (appendBlock L p t).blocks.map Block.previous_digest
      = L.blocks.map Block.previous_digest ++ [L.headDigest] := by
    show (L.blocks ++ [sealBlock L.blocks.length t p L.headDigest]).map Block.previous_digest
      = _
    rw [List.map_append]
    rfl
  show ((appendBlock L p t).blocks.map Block.previous_digest
      ++ [(appendBlock L p t).headDigest]).Pairwise (· < ·)
  rw [hmap]
  have h3 := List.pairwise_append.mp h
  refine List.pairwise_append.mpr ⟨h, List.pairwise_singleton _ _, ?_⟩
  intro x hx y hy
  rw [List.mem_singleton] at hy
  subst hy
  rcases List.mem_append.mp hx with hx1 | hx1
  · exact lt_trans (h3.2.2 x hx1 L.headDigest (List.mem_singleton.mpr rfl)) hstep
  · rw [List.mem_singleton] at hx1
    subst hx1
    exact hstep

theorem prevChain_applyAppends :
    ∀ (inputs : List (Payload × Nat)) (L : Ledger), PrevChain L →
      PrevChain (applyAppends L inputs)
  | [], _, h => h
  | (p, t) :: rest, L, h =>
    prevChain_applyAppends rest (appendBlock L p t) (prevChain_appendBlock L p t h)

theorem prevChain_initLedger (gp : Payload) (gt : Nat) : PrevChain (initLedger gp gt) := by
  show ([sentinel, hasher 0 gt gp sentinel] : List Digest).Pairwise (· < ·)
  refine List.pairwise_cons.mpr ⟨?_, List.pairwise_singleton _ _⟩
  intro y hy
  rw [List.mem_singleton] at hy
  subst hy
  exact lt_hasher 0 gt gp sentinel

/-! ## Claim theorems -/

/-- C2: when block `i` fails the digest recomputation check (I1) after a clean
prefix, `validate` reports the violation at index `i` attributed to I1,
whatever blocks follow; in particular the result is the same for every
suffix, so a downstream I2 failure at `i + 1` (as caused by a tampered block
breaking both its own digest and the next block's linkage) is never cited. -/
theorem validator_cites_first_I1 (l₁ : List Block) (b : Block) (rest rest2 : List Block)
    (hclean : scanChain none 0 l₁ = none)
    (hbad : b.digest ≠ hasher b.index b.timestamp b.payload b.previous_digest) :
    validate (l₁ ++ b :: rest) = ⟨false, some l₁.length, some Violation.I1⟩ ∧
    validate (l₁ ++ b :: rest) = validate (l₁ ++ b :: rest2) := by
  have h1 := scanChain_append_I1 l₁ b rest none 0 hclean hbad
  have h2 := scanChain_append_I1 l₁ b rest2 none 0 hclean hbad
  rw [Nat.zero_add] at h1 h2
  constructor
  · rw [validate, h1]
  · rw [validate, h1, validate, h2]

/-- Witness for C2: a genesis block followed by a block whose `digest` field
was tampered, breaking I1 at index 1 and the linkage (I2) of the honest block
at index 2; the report cites index 1 with I1. -/
theorem validator_cites_first_I1_witness :
    validate [sealBlock 0 0 [0] 0, Block.mk 1 1 [1] 17 5, sealBlock 2 2 [2] 7270120227]
      = ⟨false, some 1, some Violation.I1⟩ ∧
    linkBroken (some (Block.mk 1 1 [1] 17 5).digest) (sealBlock 2 2 [2] 7270120227) = true :=
  ⟨(validator_cites_first_I1 [sealBlock 0 0 [0] 0] (Block.mk 1 1 [1] 17 5)
      [sealBlock 2 2 [2] 7270120227] [] (by decide) (by decide)).1,
    by decide⟩

/-- C3: starting from a freshly initialized ledger, every sequence of `N`
successful appends yields `length() = N + 1`, and `validate` on the snapshot
reports `is_valid = true` with no failure index: `append` preserves I1, I2
and I3. -/
theorem append_sequence_valid (gp : Payload) (gt : Nat) (inputs : List (Payload × Nat)) :
    (applyAppends (initLedger gp gt) inputs).length = inputs.length + 1 ∧
    validate (applyAppends (initLedger gp gt) inputs).snapshot = ⟨true, none, none⟩ := by
  constructor
  · show (applyAppends (initLedger gp gt) inputs).blocks.length = _
    rw [length_applyAppends]
    show 1 + inputs.length = _
    omega
  · exact validate_of_chainOk _
      (chainOk_applyAppends inputs (initLedger gp gt) (chainOk_initLedger gp gt))

/-- C1 counterexample: `corrupt(1, new_payload)` with `new_payload` equal to
the payload already stored at index 1 of an otherwise valid two-block chain
leaves the chain bit-for-bit unchanged, so `validate` still reports
`is_valid = true` and no `first_invalid_index`, refuting the claim for that
choice of `new_payload`. -/
theorem corrupt_unchanged_payload_cex :
    validate demoLedger.snapshot = ⟨true, none, none⟩ ∧
    1 < demoLedger.length ∧
    corrupt demoLedger 1 [1] = Except.ok demoLedger ∧
    validate ((corrupt demoLedger 1 [1]).toOption.getD demoLedger).snapshot
      = ⟨true, none, none⟩ :=
  ⟨by decide, by decide, rfl, by decide⟩

/-- C1 (amended): a single `corrupt(k, new_payload)` on an otherwise valid
chain of length greater than `k`, with `new_payload` different from the
payload currently stored at index `k`, makes `validate` report
`is_valid = false` with `first_invalid_index = k` (attributed to I1), while
`corrupt` leaves every block's `digest` and `previous_digest` unchanged. -/
theorem corrupt_detected (L : Ledger) (k : Nat) (p : Payload)
    (hvalid : validate L.snapshot = ⟨true, none, none⟩)
    (hk : k < L.length)
    (hp : p ≠ (L.blocks.get ⟨k, hk⟩).payload) :
    ∃ L' : Ledger, corrupt L k p = Except.ok L' ∧
      validate L'.snapshot = ⟨false, some k, some Violation.I1⟩ ∧
      ∀ j : Nat, (L'.blocks[j]?).map Block.digest = (L.blocks[j]?).map Block.digest ∧
        (L'.blocks[j]?).map Block.previous_digest
          = (L.blocks[j]?).map Block.previous_digest := by
  have hkb : k < L.blocks.length := hk
  have hscan : scanChain none 0 L.blocks = none := scanChain_none_of_validate_ok _ hvalid
  refine ⟨⟨L.blocks.set k { L.blocks.get ⟨k, hkb⟩ with payload := p }⟩, ?_, ?_, ?_⟩
  · show corrupt L k p = _
    rw [corrupt, dif_pos hkb]
  · show validate (L.blocks.set k _) = _
    rw [List.set_eq_take_cons_drop _ hkb]
    have hpre : scanChain none 0 (L.blocks.take k) = none := by
      have hs := hscan
      rw [blocks_decomp L.blocks k hkb] at hs
      exact scanChain_of_append_none _ _ _ _ hs
    have hI1 := scanChain_I1_at L.blocks k hkb hscan
    have hbad : ({ L.blocks.get ⟨k, hkb⟩ with payload := p } : Block).digest ≠
        hasher ({ L.blocks.get ⟨k, hkb⟩ with payload := p } : Block).index
          ({ L.blocks.get ⟨k, hkb⟩ with payload := p } : Block).timestamp
          ({ L.blocks.get ⟨k, hkb⟩ with payload := p } : Block).payload
          ({ L.blocks.get ⟨k, hkb⟩ with payload := p } : Block).previous_digest := by
      intro hcontra
      have hcontra2 : (L.blocks.get ⟨k, hkb⟩).digest =
          hasher (L.blocks.get ⟨k, hkb⟩).index (L.blocks.get ⟨k, hkb⟩).timestamp p
            (L.blocks.get ⟨k, hkb⟩).previous_digest := hcontra
      rw [hI1] at hcontra2
      exact hp ((hasher_inj hcontra2).2.2.1).symm
    have hrep := scanChain_append_I1 (L.blocks.take k)
      ({ L.blocks.get ⟨k, hkb⟩ with payload := p }) (L.blocks.drop (k + 1)) none 0 hpre hbad
    rw [Nat.zero_add, List.length_take, min_eq_left (le_of_lt hkb)] at hrep
    rw [validate, hrep]
  · intro j
    by_cases hj : k = j
    · subst hj
      show ((L.blocks.set k _)[k]?).map _ = _ ∧ ((L.blocks.set k _)[k]?).map _ = _
      rw [List.getElem?_set_self hkb, List.getElem?_eq_getElem hkb]
      exact ⟨rfl, rfl⟩
    · show ((L.blocks.set k _)[j]?).map _ = _ ∧ ((L.blocks.set k _)[j]?).map _ = _
      rw [List.getElem?_set_ne hj]
      exact ⟨rfl, rfl⟩

/-- Witness for C1 (amended): corrupting block 1 of a valid two-block chain
with a genuinely different payload is detected at index 1. -/
theorem corrupt_detected_witness :
    ∃ L' : Ledger, corrupt demoLedger 1 [9] = Except.ok L' ∧
      validate L'.snapshot = ⟨false, some 1, some Violation.I1⟩ ∧
      ∀ j : Nat, (L'.blocks[j]?).map Block.digest
          = (demoLedger.blocks[j]?).map Block.digest ∧
        (L'.blocks[j]?).map Block.previous_digest
          = (demoLedger.blocks[j]?).map Block.previous_digest :=
  corrupt_detected demoLedger 1 [9] (by decide) (by decide) (by decide)

/-- C4: under the compare-and-publish protocol, when two append attempts both
observed the same head digest, the one that publishes first succeeds and the
other fails with the retryable `ConcurrentAppendConflict`; and a ledger built
by appends never holds two blocks with the same index, nor two blocks whose
`previous_digest` point at the same predecessor. -/
theorem concurrent_append_exactly_one (L : Ledger) (p₁ p₂ : Payload) (t₁ t₂ : Nat)
    (gp : Payload) (gt : Nat) (inputs : List (Payload × Nat)) :
    tryAppend L L.headDigest p₁ t₁ = Except.ok (appendBlock L p₁ t₁) ∧
    tryAppend (appendBlock L p₁ t₁) L.headDigest p₂ t₂
      = Except.error LedgerErr.ConcurrentAppendConflict ∧
    ((applyAppends (initLedger gp gt) inputs).blocks.map Block.index).Nodup ∧
    ((applyAppends (initLedger gp gt) inputs).blocks.map Block.previous_digest).Nodup := by
  refine ⟨?_, ?_, ?_, ?_⟩
  · rw [tryAppend, if_pos rfl]
  · rw [tryAppend, if_neg]
    rw [headDigest_appendBlock]
    exact Nat.ne_of_gt (lt_hasher _ _ _ _)
  · rw [map_index_applyAppends inputs (initLedger gp gt) rfl]
    exact List.nodup_range _
  · have h := prevChain_applyAppends inputs (initLedger gp gt) (prevChain_initLedger gp gt)
    have h2 := (List.pairwise_append.mp h).1
    exact h2.imp Nat.ne_of_lt

/-- C6: `get(index)` returns the block at `index` when
`0 ≤ index < length()`, and fails with `IndexOutOfRange` when `index` is
negative or at least `length()`; in particular `get(5)` on a three-block
ledger fails with `IndexOutOfRange`. -/
theorem get_contract (L : Ledger) (index : Int) :
    (0 ≤ index → ∀ hlt : index.toNat < L.length,
      L.get index = Except.ok (L.blocks.get ⟨index.toNat, hlt⟩)) ∧
    (index < 0 ∨ (L.length : Int) ≤ index →
      L.get index = Except.error LedgerErr.IndexOutOfRange) ∧
    demoLedger3.get 5 = Except.error LedgerErr.IndexOutOfRange := by
  refine ⟨?_, ?_, ?_⟩
  · intro h0 hlt
    rw [Ledger.get, dif_pos ⟨h0, hlt⟩]
  · intro hbad
    rw [Ledger.get, dif_neg]
    intro ⟨h0, hlt⟩
    rcases hbad with hneg | hbig
    · omega
    · have : index.toNat < L.length := hlt
      omega
  · rw [Ledger.get, dif_neg]
    intro ⟨h0, hlt⟩
    have h3 : demoLedger3.blocks.length = 3 := by decide
    omega

/-- Witness for C6: on the three-block demonstration ledger, `get 0` returns
the genesis block and `get (-1)` fails with `IndexOutOfRange`. -/
theorem get_contract_witness :
    demoLedger3.get 0
      = Except.ok (demoLedger3.blocks.get ⟨0, by decide⟩) ∧
    demoLedger3.get (-1) = Except.error LedgerErr.IndexOutOfRange :=
  ⟨(get_contract demoLedger3 0).1 (by decide) (by decide),
    (get_contract demoLedger3 (-1)).2.1 (Or.inl (by decide))⟩

/-- C5: `verifyChain` maps a 2xx response with truthy `is_valid` to the
"chain is intact" success notification, a 2xx response with falsy `is_valid`
to the "chain is broken" error notification, scheduling a reload in both
cases; a non-2xx response or a network failure yields the generic error
notification with no reload.  Every case returns an effect value, so the
function never throws to its caller. -/
theorem verifyChain_contract (r : VerifyResponse) :
    (respOk r = true → r.is_valid = some true →
      verifyChain (FetchResult.response r)
        = ⟨[⟨msgChainValid, NotifType.success⟩], true⟩) ∧
    (respOk r = true → r.is_valid = some false →
      verifyChain (FetchResult.response r)
        = ⟨[⟨msgChainInvalid, NotifType.error⟩], true⟩) ∧
    (respOk r = false →
      verifyChain (FetchResult.response r)
        = ⟨[⟨msgVerifyFailed, NotifType.error⟩], false⟩) ∧
    verifyChain FetchResult.networkError
      = ⟨[⟨msgVerifyFailed, NotifType.error⟩], false⟩ := by
  refine ⟨?_, ?_, ?_, rfl⟩
  · intro hok hv
    rw [verifyChain, if_pos hok, hv]
  · intro hok hv
    rw [verifyChain, if_pos hok, hv]
  · intro hbad
    rw [verifyChain, if_neg (by rw [hbad]; exact Bool.false_ne_true)]

/-- Witness for C5: a 200 response with `is_valid: true` notifies success and
reloads; a 200 response with `is_valid: false` notifies the broken chain and
reloads; a 500 response notifies the generic failure without reloading. -/
theorem verifyChain_contract_witness :
    verifyChain (FetchResult.response ⟨200, some true⟩)
      = ⟨[⟨msgChainValid, NotifType.success⟩], true⟩ ∧
    verifyChain (FetchResult.response ⟨200, some false⟩)
      = ⟨[⟨msgChainInvalid, NotifType.error⟩], true⟩ ∧
    verifyChain (FetchResult.response ⟨500, some true⟩)
      = ⟨[⟨msgVerifyFailed, NotifType.error⟩], false⟩ :=
  ⟨(verifyChain_contract ⟨200, some true⟩).1 (by decide) rfl,
    (verifyChain_contract ⟨200, some false⟩).2.1 (by decide) rfl,
    (verifyChain_contract ⟨500, some true⟩).2.2.1 (by decide)⟩

/-- C7: once a tamper request has been issued, a non-ok server response with a
nonempty `message` shows exactly that message as an error notification, with
no retry (a single request is ever issued) and no reload; an ok response
shows the returned `message` as a warning notification and schedules a
reload. -/
theorem simulateTampering_response_contract (s : String) (r : TamperResponse)
    (message : Option String) (m : String)
    (hs1 : s ≠ "") (hs2 : jsIsNaN s = false) (hbody : r.body = some message) :
    (r.ok = false → message = some m → m ≠ "" →
      simulateTampering (some s) (FetchResult.response r)
        = ⟨some ("/api/blockchain/tamper/" ++ s), [⟨m, NotifType.error⟩], false⟩) ∧
    (r.ok = true →
      simulateTampering (some s) (FetchResult.response r)
        = ⟨some ("/api/blockchain/tamper/" ++ s),
            [⟨jsStringOfOpt message, NotifType.warning⟩], true⟩) := by
  have hgate : ¬(s = "" || jsIsNaN s) = true := by
    simp [hs1, hs2]
  constructor
  · intro hok hm hmne
    simp only [simulateTampering, if_neg hgate, hbody, hm, hok, Bool.false_eq_true,
      if_false, jsOrElse, if_neg hmne]
  · intro hok
    simp only [simulateTampering, if_neg hgate, hbody, hok, if_true]

/-- Witness for C7: tampering block 99 when the server answers 404 with
message "block not found" shows that message as an error and does not
reload; an ok answer with a confirmation message shows it as a warning and
reloads. -/
theorem simulateTampering_response_contract_witness :
    simulateTampering (some "99") (FetchResult.response ⟨false, some (some "block not found")⟩)
      = ⟨some "/api/blockchain/tamper/99", [⟨"block not found", NotifType.error⟩], false⟩ ∧
    simulateTampering (some "1") (FetchResult.response ⟨true, some (some "Block 1 tampered")⟩)
      = ⟨some "/api/blockchain/tamper/1",
          [⟨"Block 1 tampered", NotifType.warning⟩], true⟩ :=
  ⟨(simulateTampering_response_contract "99" ⟨false, some (some "block not found")⟩
      (some "block not found") "block not found" (by decide) (by decide) rfl).1 rfl rfl
      (by decide),
    (simulateTampering_response_contract "1" ⟨true, some (some "Block 1 tampered")⟩
      (some "Block 1 tampered") "Block 1 tampered" (by decide) (by decide) rfl).2 rfl⟩

/-- C9: a cancelled prompt, an empty input or a non-numeric input (by
JavaScript `isNaN` coercion) makes `simulateTampering` return with no
request, no notification and no reload; a nonempty numeric input — negative
numbers included — is interpolated raw into the request URL. -/
theorem simulateTampering_input_gate (net : FetchResult TamperResponse) (s : String) :
    simulateTampering none net = ⟨none, [], false⟩ ∧
    simulateTampering (some "") net = ⟨none, [], false⟩ ∧
    (jsIsNaN s = true → simulateTampering (some s) net = ⟨none, [], false⟩) ∧
    (s ≠ "" → jsIsNaN s = false →
      (simulateTampering (some s) net).request
        = some ("/api/blockchain/tamper/" ++ s)) := by
  refine ⟨rfl, ?_, ?_, ?_⟩
  · rw [simulateTampering, if_pos (by simp)]
  · intro hnan
    rw [simulateTampering, if_pos (by simp [hnan])]
  · intro hs1 hs2
    cases net with
    | networkError => simp [simulateTampering, hs1, hs2]
    | response r =>
      cases hb : r.body with
      | none => simp [simulateTampering, hs1, hs2, hb]
      | some message =>
        by_cases hok : r.ok = true
        · simp [simulateTampering, hs1, hs2, hb, hok]
        · simp [simulateTampering, hs1, hs2, hb, hok]

/-- Witness for C9: the non-numeric input "abc" is rejected before any
request, while the negative numeric input "-2" is forwarded raw in the URL. -/
theorem simulateTampering_input_gate_witness :
    (jsIsNaN "abc" = true ∧
      simulateTampering (some "abc") FetchResult.networkError = ⟨none, [], false⟩) ∧
    ("-2" ≠ "" ∧ jsIsNaN "-2" = false ∧
      (simulateTampering (some "-2") FetchResult.networkError).request
        = some "/api/blockchain/tamper/-2") :=
  ⟨⟨by decide, (simulateTampering_input_gate FetchResult.networkError "abc").2.2.1 (by decide)⟩,
    ⟨by decide, by decide,
      (simulateTampering_input_gate FetchResult.networkError "-2").2.2.2 (by decide) (by decide)⟩⟩

/-- C8: `truncateAllHashes` rewrites only the displayed text of each hash
element: the `title` attribute holding the full value is retained untouched;
a full value longer than 32 characters is displayed as its first 16
characters, an ellipsis, and its last 16 characters, and a full value of at
most 32 characters leaves the element unchanged. -/
theorem truncateAllHashes_contract (e : HashEl) (els : List HashEl) :
    (truncateHashEl e).title = e.title ∧
    ((fullHashOf e).length ≤ 32 → truncateHashEl e = e) ∧
    (32 < (fullHashOf e).length →
      (truncateHashEl e).text
        = (fullHashOf e).take 16 ++ "..."
            ++ (fullHashOf e).drop ((fullHashOf e).length - 16)) ∧
    truncateAllHashes els = els.map truncateHashEl := by
  refine ⟨?_, ?_, ?_, rfl⟩
  · rw [truncateHashEl]
    by_cases h : (fullHashOf e).length > 32
    · rw [if_pos h]
    · rw [if_neg h]
  · intro hle
    rw [truncateHashEl, if_neg (by omega)]
  · intro hgt
    rw [truncateHashEl, if_pos hgt]

set_option maxRecDepth 4000 in
/-- Witness for C8: a 64-character digest is truncated to head, ellipsis and
tail while its `title` is kept; a short text is left unchanged. -/
theorem truncateAllHashes_contract_witness :
    (truncateHashEl ⟨some (String.mk (List.replicate 64 'a')), "x"⟩).title
      = some (String.mk (List.replicate 64 'a')) ∧
    (truncateHashEl ⟨some (String.mk (List.replicate 64 'a')), "x"⟩).text
      = String.mk (List.replicate 16 'a') ++ "..." ++ String.mk (List.replicate 16 'a') ∧
    truncateHashEl ⟨none, "deadbeef"⟩ = ⟨none, "deadbeef"⟩ :=
  ⟨(truncateAllHashes_contract ⟨some (String.mk (List.replicate 64 'a')), "x"⟩ []).1,
    by
      rw [(truncateAllHashes_contract ⟨some (String.mk (List.replicate 64 'a')), "x"⟩
        []).2.2.1 (by decide)]
      decide,
    (truncateAllHashes_contract ⟨none, "deadbeef"⟩ []).2.1 (by decide)⟩

/-- C10: on a well-formed page state (each block carries exactly one of the
`expanded`/`collapsed` classes, as established at load time),
`toggleAllBlocks` drives all blocks to one uniform state: if any block was
collapsed, every block ends expanded with its details display set to
`block`; if all blocks were expanded, every block ends collapsed with its
details display set to `none`. -/
theorem toggleAllBlocks_uniform (blocks : List BlockItem)
    (hwf : ∀ b ∈ blocks, b.expanded = !b.collapsed) :
    ((∃ b ∈ blocks, b.collapsed = true) →
      ∀ b2 ∈ toggleAllBlocks blocks,
        b2.collapsed = false ∧ b2.expanded = true ∧ b2.display = "block") ∧
    ((∀ b ∈ blocks, b.expanded = true) →
      ∀ b2 ∈ toggleAllBlocks blocks,
        b2.collapsed = true ∧ b2.expanded = false ∧ b2.display = "none") := by
  constructor
  · intro hex b2 hb2
    have hany : blocks.any (·.collapsed) = true := by
      obtain ⟨b, hb, hcol⟩ := hex
      exact List.any_eq_true.mpr ⟨b, hb, hcol⟩
    rw [toggleAllBlocks] at hb2
    simp only [hany, if_pos] at hb2
    obtain ⟨b, _, hb2eq⟩ := List.mem_map.mp hb2
    rw [← hb2eq]
    exact ⟨rfl, rfl, rfl⟩
  · intro hall b2 hb2
    have hany : blocks.any (·.collapsed) = false := by
      rw [List.any_eq_false]
      intro b hb
      have h1 := hwf b hb
      have h2 := hall b hb
      rw [h2] at h1
      cases hcol : b.collapsed with
      | false => simp
      | true => rw [hcol] at h1; exact absurd h1.symm (by decide)
    rw [toggleAllBlocks] at hb2
    obtain ⟨b, _, hb2eq⟩ := List.mem_map.mp hb2
    rw [hany] at hb2eq
    rw [if_neg (by decide)] at hb2eq
    rw [← hb2eq]
    exact ⟨rfl, rfl, rfl⟩

/-- Witness for C10: with block 0 expanded and block 1 collapsed, toggling
expands both; with both expanded, toggling collapses both. -/
theorem toggleAllBlocks_uniform_witness :
    (∀ b2 ∈ toggleAllBlocks [⟨0, false, true, "block"⟩, ⟨1, true, false, "none"⟩],
      b2.collapsed = false ∧ b2.expanded = true ∧ b2.display = "block") ∧
    (∀ b2 ∈ toggleAllBlocks [⟨0, false, true, "block"⟩, ⟨1, false, true, "block"⟩],
      b2.collapsed = true ∧ b2.expanded = false ∧ b2.display = "none") :=
  ⟨(toggleAllBlocks_uniform [⟨0, false, true, "block"⟩, ⟨1, true, false, "none"⟩]
      (by decide)).1 ⟨⟨1, true, false, "none"⟩, by decide, rfl⟩,
    (toggleAllBlocks_uniform [⟨0, false, true, "block"⟩, ⟨1, false, true, "block"⟩]
      (by decide)).2 (by decide)⟩

end Entekhablock
